import Mathlib

/-!
Shallow embedding of the flight-quality analytics engine (src/utils.ts and the
metrics computation in src/App.tsx), together with theorems settling the
claims about it.  JavaScript numbers are modelled as real numbers (ℝ) for the
geodesic/overlap/curvature code and as rationals (ℚ) for the image-quality
core, which uses no transcendental functions.  The IEEE NaN produced by the
JavaScript expression 0/0 is modelled explicitly with an Option type where it
can arise.
-/

open scoped Classical

noncomputable section

namespace FlightQC

/-- Earth radius in meters (src/utils.ts line 4: `const R = 6371000`). -/
def R : ℝ := 6371000

/-- `toRad` (src/utils.ts line 6): degrees to radians. -/
def toRad (value : ℝ) : ℝ := value * Real.pi / 180

/-- `toDeg` (src/utils.ts line 7): radians to degrees. -/
def toDeg (value : ℝ) : ℝ := value * 180 / Real.pi

/-- Truncation toward zero, as performed by JavaScript when evaluating the
remainder operator `%`: `trunc z` is `⌊z⌋` for nonnegative `z` and `⌈z⌉`
(`= -⌊-z⌋`) for negative `z`. -/
def rtrunc (z : ℝ) : ℤ := if 0 ≤ z then ⌊z⌋ else -⌊-z⌋

/-- The JavaScript remainder operator `x % y` on numbers:
`x - y * trunc (x / y)` (remainder takes the sign of the dividend). -/
def jsMod (x y : ℝ) : ℝ := x - y * rtrunc (x / y)

/-- The two-argument arctangent `Math.atan2 y x`, range `(-π, π]`,
with `atan2 0 0 = 0` as in JavaScript. -/
def atan2 (y x : ℝ) : ℝ :=
  if 0 < x then Real.arctan (y / x)
  else if x < 0 ∧ 0 ≤ y then Real.arctan (y / x) + Real.pi
  else if x < 0 ∧ y < 0 then Real.arctan (y / x) - Real.pi
  else if x = 0 ∧ 0 < y then Real.pi / 2
  else if x = 0 ∧ y < 0 then -(Real.pi / 2)
  else 0

/-- A latitude/longitude pair in degrees (the `{lat, lng}` object shape taken
by the geodesic helpers in src/utils.ts). -/
structure GeoPoint where
  lat : ℝ
  lng : ℝ

/-- `calculateDistance` (src/utils.ts lines 10-20): haversine great-circle
distance in meters. -/
def calculateDistance (p1 p2 : GeoPoint) : ℝ :=
  let dLat := toRad (p2.lat - p1.lat)
  let dLon := toRad (p2.lng - p1.lng)
  let lat1 := toRad p1.lat
  let lat2 := toRad p2.lat
  let a := Real.sin (dLat / 2) * Real.sin (dLat / 2) +
           Real.sin (dLon / 2) * Real.sin (dLon / 2) * Real.cos lat1 * Real.cos lat2
  let c := 2 * atan2 (Real.sqrt a) (Real.sqrt (1 - a))
  R * c

/-- `calculateBearing` (src/utils.ts lines 23-29): initial bearing in degrees,
normalized by `(brng + 360) % 360`. -/
def calculateBearing (p1 p2 : GeoPoint) : ℝ :=
  let y := Real.sin (toRad (p2.lng - p1.lng)) * Real.cos (toRad p2.lat)
  let x := Real.cos (toRad p1.lat) * Real.sin (toRad p2.lat) -
           Real.sin (toRad p1.lat) * Real.cos (toRad p2.lat) * Real.cos (toRad (p2.lng - p1.lng))
  let brng := toDeg (atan2 y x)
  jsMod (brng + 360) 360

end FlightQC

end

namespace FlightQC

/-- RTK fix-quality tiers (`'FIXED' | 'FLOAT' | 'SINGLE'` in src/utils.ts). -/
inductive RtkStatus where
  | FIXED
  | FLOAT
  | SINGLE
deriving DecidableEq, Repr

/-- The characters matched by the JavaScript regex class `\s` and removed by
`String.prototype.trim`, restricted to the ASCII range (the RTK logs this
parser consumes are ASCII). -/
def isJsSpace (c : Char) : Bool :=
  c = ' ' || c = '\t' || c = '\n' || c = '\r' || c = '\x0b' || c = '\x0c'

/-- `line.trim()`: strip leading and trailing whitespace. -/
def jsTrim (l : List Char) : List Char :=
  ((l.dropWhile isJsSpace).reverse.dropWhile isJsSpace).reverse

/-- `content.split('\n')`. -/
def splitOnNewline : List Char → List (List Char)
  | [] => [[]]
  | c :: rest =>
    let r := splitOnNewline rest
    if c = '\n' then [] :: r
    else (c :: r.headD []) :: r.tail

/-- `parseInt(ds, 10)` on a nonempty run of decimal digits. -/
def digitsToNat (ds : List Char) : ℕ :=
  ds.foldl (fun n c => n * 10 + (c.toNat - '0'.toNat)) 0

/-- The regex match `trimmed.match(/^(\d+)\s+/)` followed by `parseInt` of the
captured digits: the trimmed line must start with one or more decimal digits
immediately followed by a whitespace character. -/
def leadIndex (l : List Char) : Option ℕ :=
  let ds := l.takeWhile Char.isDigit
  match ds, l.drop ds.length with
  | [], _ => none
  | _ :: _, [] => none
  | _ :: _, c :: _ => if isJsSpace c then some (digitsToNat ds) else none

/-- Whether `sub` occurs at the very start of `hay`. -/
def startsWithList : List Char → List Char → Bool
  | [], _ => true
  | _ :: _, [] => false
  | c :: cs, d :: ds => c = d && startsWithList cs ds

/-- `hay.includes(sub)`: whether `sub` occurs anywhere in `hay`. -/
def hasSub (hay sub : List Char) : Bool :=
  match hay with
  | [] => sub.isEmpty
  | _ :: t => startsWithList sub hay || hasSub t sub

/-- `Map.set` on a `Map<number, RtkStatus>` viewed as an insertion-ordered
association list: an existing key is updated in place, a new key is appended. -/
def mapSet (m : List (ℕ × RtkStatus)) (k : ℕ) (v : RtkStatus) :
    List (ℕ × RtkStatus) :=
  if m.any (fun e => e.1 = k) then m.map (fun e => if e.1 = k then (k, v) else e)
  else m ++ [(k, v)]

/-- `parseMrkContent` (src/utils.ts lines 260-279): split the RTK log on
newlines; for each line, trim it, skip it when empty or when it does not
start with a decimal index followed by whitespace, otherwise classify it by
content (`"50,Q"` → FIXED, else `"20,Q"`/`"34,Q"` → FLOAT, else SINGLE) and
record the classification under the parsed index. -/
def parseMrkContent (content : List Char) : List (ℕ × RtkStatus) :=
  let lines := splitOnNewline content
  lines.foldl (fun map line =>
    let trimmed := jsTrim line
    if trimmed.isEmpty then map
    else
      match leadIndex trimmed with
      | none => map
      | some index =>
        let status : RtkStatus :=
          if hasSub trimmed "50,Q".toList then .FIXED
          else if hasSub trimmed "20,Q".toList || hasSub trimmed "34,Q".toList then .FLOAT
          else .SINGLE
        mapSet map index status) []

/-- Classification of a (trimmed) log line by content, written from the
claim: contains `"50,Q"` → Fixed; otherwise contains `"20,Q"` or `"34,Q"` →
Float; otherwise Single. -/
def specClassify (t : List Char) : RtkStatus :=
  if hasSub t "50,Q".toList then .FIXED
  else if hasSub t "20,Q".toList || hasSub t "34,Q".toList then .FLOAT
  else .SINGLE

/-- The entry a single log line contributes, written from the claim: a line
whose trimmed form begins with a decimal index followed by whitespace is
mapped to its classification; any other line is skipped. -/
def specLineEntry (line : List Char) : Option (ℕ × RtkStatus) :=
  (leadIndex (jsTrim line)).map (fun i => (i, specClassify (jsTrim line)))

/-- The telemetry parser as the claim describes it: collect the per-line
entries (skipped lines contribute nothing) into the index-to-status map. -/
def specParseMrk (content : List Char) : List (ℕ × RtkStatus) :=
  ((splitOnNewline content).filterMap specLineEntry).foldl
    (fun m e => mapSet m e.1 e.2) []

/-- The concrete RTK log of the claim's scenario. -/
def mrkScenario : List Char := "1  ...50,Q...\n2  ...34,Q...\n3  ...99,Q...\n".toList

/-- One photo record (src/types.ts `PhotoMetadata`), restricted to the fields
the engine's metric functions read.  The `imageQuality` attachment and the
optional accuracy fields are not consulted by any claimed computation. -/
structure PhotoMetadata where
  name : String
  lat : ℝ
  lng : ℝ
  alt : ℝ
  timestamp : ℤ
  rtkStatus : Option RtkStatus := none
deriving Inhabited

/-- The `{lat, lng}` view of a photo passed to the geodesic helpers. -/
def PhotoMetadata.pos (p : PhotoMetadata) : GeoPoint := ⟨p.lat, p.lng⟩

/-- Drone sensor/lens specification (src/types.ts `DroneSpecs`). -/
structure DroneSpecs where
  name : String
  sensorWidth : ℝ
  sensorHeight : ℝ
  focalLength : ℝ

/-- `photos.filter(p => p.rtkStatus === 'FIXED').length` (App.tsx). -/
def countFixed (photos : List PhotoMetadata) : ℕ :=
  (photos.filter (fun p => p.rtkStatus = some RtkStatus.FIXED)).length

noncomputable section

/-- The RTK fixed-ratio metric of App.tsx (also src/unnamed/part_001 line 35):
`photos[0].rtkStatus ? (fixedCount / photos.length) * 100 : -1`.  The
surrounding memo returns early when `photos.length < 2`, so the head access
is always in bounds there; the empty case is mapped to the same sentinel. -/
def rtkFixedRatio (photos : List PhotoMetadata) : ℝ :=
  match photos.head? with
  | none => -1
  | some p0 =>
    match p0.rtkStatus with
    | some _ => ((countFixed photos : ℝ) / (photos.length : ℝ)) * 100
    | none => -1

end

/-- First photo of the C1 counterexample collection: no RTK annotation. -/
def cexPhotoA : PhotoMetadata :=
  { name := "DJI_0001", lat := 0, lng := 0, alt := 100, timestamp := 0,
    rtkStatus := none }

/-- Second photo of the C1 counterexample collection: annotated FIXED. -/
def cexPhotoB : PhotoMetadata :=
  { name := "DJI_0002", lat := 0, lng := 0, alt := 100, timestamp := 1,
    rtkStatus := some RtkStatus.FIXED }

/-- Result record of the per-photo quality analysis (src/utils.ts
`analyzeImageQuality`).  `blurScore` is `none` exactly when the JavaScript
computation produces the IEEE NaN `0/0`; all finite scores are `some`. -/
structure QualityResult where
  isBlurry : Bool
  blurScore : Option ℚ
  isOverexposed : Bool
  exposureScore : ℚ
deriving DecidableEq, Repr

/-- The pure pixel-buffer core of `analyzeImageQuality` (src/utils.ts lines
299-335), from the `getImageData` result onward: `pix i` is the RGB triple of
pixel `i` of a `w × h` buffer (byte values 0-255).  The grayscale buffer is a
`Uint8Array`, so each stored gray value is truncated to an integer, modelled
with `Int.floor`.  The unused local `mean` of the gray values (lines 315-317)
is dead code and omitted.  When the interior region is empty the JavaScript
code computes `laplacianMean = 0/0 = NaN` and propagates it into
`laplacianVar`; this is modelled by `blurScore = none`, and `NaN < 50`
evaluating to `false` gives `isBlurry = false`. -/
def analyzeImageQualityCore (w h : ℕ) (pix : ℕ → ℚ × ℚ × ℚ) : QualityResult :=
  let overExposedCount :=
    ((List.range (w * h)).filter (fun i =>
      250 < (pix i).1 ∧ 250 < (pix i).2.1 ∧ 250 < (pix i).2.2)).length
  let grayData : ℕ → ℚ := fun i =>
    ((⌊(0.299 : ℚ) * (pix i).1 + 0.587 * (pix i).2.1 + 0.114 * (pix i).2.2⌋ : ℤ) : ℚ)
  let exposureScore : ℚ := ((overExposedCount : ℚ) / ((w * h : ℕ) : ℚ)) * 100
  let isOverexposed := decide (15 < exposureScore)
  let laplacianValues : List ℚ :=
    (List.range' 1 (h - 2)).flatMap (fun y =>
      (List.range' 1 (w - 2)).map (fun x =>
        let idx := y * w + x
        grayData (idx - w) * 1 + grayData (idx - 1) * 1 + grayData idx * (-4) +
          grayData (idx + 1) * 1 + grayData (idx + w) * 1))
  let blurScore : Option ℚ :=
    if laplacianValues.length = 0 then none
    else
      let laplacianMean := laplacianValues.sum / (laplacianValues.length : ℚ)
      some ((laplacianValues.map (fun v => (v - laplacianMean) ^ 2)).sum /
        (laplacianValues.length : ℚ))
  let isBlurry := match blurScore with
    | none => false
    | some v => decide (v < 50)
  ⟨isBlurry, blurScore, isOverexposed, exposureScore⟩

/-- A 2×2 all-black pixel buffer. -/
def blackBuffer : ℕ → ℚ × ℚ × ℚ := fun _ => (0, 0, 0)

/-- `[...photos].sort((a, b) => a.timestamp - b.timestamp)`: a stable sort by
capture timestamp (modern JavaScript `Array.prototype.sort` is stable). -/
def sortByTimestamp (photos : List PhotoMetadata) : List PhotoMetadata :=
  List.insertionSort (fun a b => a.timestamp ≤ b.timestamp) photos

noncomputable section

/-- Folding an absolute bearing difference onto `[0,180]`:
`if (diff > 180) diff = 360 - diff` (src/utils.ts lines 122-123 and 204-205). -/
def foldTo180 (diff : ℝ) : ℝ := if diff > 180 then 360 - diff else diff

/-- The running-minimum update of the side-neighbor search (src/utils.ts
line 209: `if (dist < minSideDist) minSideDist = dist`), with `none`
standing for the initial `Infinity`. -/
def minUpd (m : Option ℝ) (dist : ℝ) : Option ℝ :=
  match m with
  | none => some dist
  | some mv => if dist < mv then some dist else m

/-- The minimum of a list of reals, `none` on the empty list. -/
def listMin : List ℝ → Option ℝ
  | [] => none
  | x :: xs => some (xs.foldl min x)

/-- The result record of `calculateOverlaps` (src/utils.ts lines 222-228).
The `gsd` field is a display-only string-rounded estimate consulted by no
claim and is omitted here. -/
structure OverlapResult where
  forward : ℝ
  side : ℝ
  groundWidth : ℝ
  groundHeight : ℝ

/-- The body of the forward-overlap loop (src/utils.ts lines 162-172),
accumulating `(totalForwardOverlap, count)` over the pair index `i`. -/
def forwardStep (sortedPhotos : List PhotoMetadata) (groundHeight : ℝ)
    (acc : ℝ × ℕ) (i : ℕ) : ℝ × ℕ :=
  let p1 := sortedPhotos.getD i default
  let p2 := sortedPhotos.getD (i + 1) default
  let dist := calculateDistance p1.pos p2.pos
  if dist < groundHeight * 2 then
    (acc.1 + max 0 ((1 - dist / groundHeight) * 100), acc.2 + 1)
  else acc

/-- The body of the inner neighbor scan of the side-overlap loop
(src/utils.ts lines 192-211), updating the running minimum side distance
for photo `i` with candidate `j`: skip temporal neighbors
(`Math.abs(i - j) < 20`), skip far points (`dist > groundWidth * 3`), and
among the remaining points accept those whose bearing differs from the
heading by an angle in `(45, 135)` after folding to `[0, 180]`. -/
def innerSideStep (sortedPhotos : List PhotoMetadata) (groundWidth : ℝ)
    (i : ℕ) (p1 : PhotoMetadata) (heading : ℝ) (m : Option ℝ) (j : ℕ) : Option ℝ :=
  if |(i : ℤ) - (j : ℤ)| < 20 then m
  else
    let p2 := sortedPhotos.getD j default
    let dist := calculateDistance p1.pos p2.pos
    if dist > groundWidth * 3 then m
    else
      let bearingToNeighbor := calculateBearing p1.pos p2.pos
      let angleDiff := foldTo180 |heading - bearingToNeighbor|
      if 45 < angleDiff ∧ angleDiff < 135 then minUpd m dist
      else m

/-- The local heading of photo `i` (src/utils.ts lines 183-188): bearing to
the successor, else (when `i` is last) bearing from the predecessor, else 0. -/
def sideHeading (sortedPhotos : List PhotoMetadata) (i : ℕ) : ℝ :=
  if i < sortedPhotos.length - 1 then
    calculateBearing (sortedPhotos.getD i default).pos (sortedPhotos.getD (i + 1) default).pos
  else if 0 < i then
    calculateBearing (sortedPhotos.getD (i - 1) default).pos (sortedPhotos.getD i default).pos
  else 0

/-- The body of the outer side-overlap loop (src/utils.ts lines 179-220),
accumulating `(totalSideOverlap, sideCount)` over the photo index `i`. -/
def sideStep (sortedPhotos : List PhotoMetadata) (groundWidth : ℝ)
    (acc : ℝ × ℕ) (i : ℕ) : ℝ × ℕ :=
  let p1 := sortedPhotos.getD i default
  let heading := sideHeading sortedPhotos i
  let minSideDist :=
    (List.range sortedPhotos.length).foldl
      (innerSideStep sortedPhotos groundWidth i p1 heading) none
  match minSideDist with
  | none => acc
  | some md =>
    (acc.1 + max 0 (min 100 ((1 - md / groundWidth) * 100)), acc.2 + 1)

/-- `calculateOverlaps` (src/utils.ts lines 145-229): footprint model,
forward overlap over consecutive temporal pairs, and side overlap by
directional neighbor search. -/
def calculateOverlaps (photos : List PhotoMetadata) (drone : DroneSpecs)
    (relativeHeight : ℝ) : OverlapResult :=
  let groundWidth := drone.sensorWidth * relativeHeight / drone.focalLength
  let groundHeight := drone.sensorHeight * relativeHeight / drone.focalLength
  if photos.length < 2 then
    { forward := 0, side := 0, groundWidth := groundWidth, groundHeight := groundHeight }
  else
    let sortedPhotos := sortByTimestamp photos
    let fwd := (List.range (sortedPhotos.length - 1)).foldl
      (forwardStep sortedPhotos groundHeight) ((0 : ℝ), (0 : ℕ))
    let side := (List.range sortedPhotos.length).foldl
      (sideStep sortedPhotos groundWidth) ((0 : ℝ), (0 : ℕ))
    { forward := if 0 < fwd.2 then fwd.1 / (fwd.2 : ℝ) else 0
      side := if 0 < side.2 then side.1 / (side.2 : ℝ) else 0
      groundWidth := groundWidth
      groundHeight := groundHeight }

/-- The distance between consecutive photos `i` and `i + 1`. -/
def pairDist (sorted : List PhotoMetadata) (i : ℕ) : ℝ :=
  calculateDistance (sorted.getD i default).pos (sorted.getD (i + 1) default).pos

/-- The consecutive temporal pair distances of the sorted collection. -/
def consecDistances (sorted : List PhotoMetadata) : List ℝ :=
  (List.range (sorted.length - 1)).map (pairDist sorted)

/-- Forward overlap as the claim states it: the average of
`max(0, (1 - d/groundHeight) × 100)` over exactly the consecutive temporal
pairs with `d < 2·groundHeight`; pairs at or beyond `2·groundHeight` are
excluded from both the sum and the divisor, and the result is 0 when no
pair qualifies. -/
def specForwardOverlap (sorted : List PhotoMetadata) (groundHeight : ℝ) : ℝ :=
  let qualifying := (consecDistances sorted).filter
    (fun d => d < 2 * groundHeight)
  if qualifying.isEmpty then 0
  else (qualifying.map (fun d => max 0 ((1 - d / groundHeight) * 100))).sum /
    (qualifying.length : ℝ)

/-- Side-neighbor candidacy exactly as the claim states it: `|i - j| ≥ 20`,
`distance(i,j) ≤ 3·groundWidth`, and the bearing from `i` to `j` differs
from `i`'s local heading by an angle in the open interval `(45, 135)` after
folding to `[0, 180]`. -/
def isSideCandidate (sorted : List PhotoMetadata) (groundWidth : ℝ) (i j : ℕ) : Prop :=
  20 ≤ |(i : ℤ) - (j : ℤ)| ∧
  calculateDistance (sorted.getD i default).pos (sorted.getD j default).pos ≤
    3 * groundWidth ∧
  45 < foldTo180 |sideHeading sorted i -
    calculateBearing (sorted.getD i default).pos (sorted.getD j default).pos| ∧
  foldTo180 |sideHeading sorted i -
    calculateBearing (sorted.getD i default).pos (sorted.getD j default).pos| < 135

/-- The minimum distance from photo `i` to any of its side-neighbor
candidates, `none` when no candidate exists. -/
def specMinSideDist (sorted : List PhotoMetadata) (groundWidth : ℝ) (i : ℕ) : Option ℝ :=
  listMin (((List.range sorted.length).filter
      (fun j => isSideCandidate sorted groundWidth i j)).map
    (fun j => calculateDistance (sorted.getD i default).pos
      (sorted.getD j default).pos))

/-- Photo `i`'s contribution to the side overlap as the claim states it:
`clamp(0, 100, (1 - minSideDist/groundWidth) × 100)` from the minimum
candidate distance, nothing when no candidate exists. -/
def specSideContribution (sorted : List PhotoMetadata) (groundWidth : ℝ)
    (i : ℕ) : Option ℝ :=
  (specMinSideDist sorted groundWidth i).map
    (fun md => max 0 (min 100 ((1 - md / groundWidth) * 100)))

/-- Side overlap as the claim states it: the average of the contributions of
the contributing photos, 0 when no photo contributes. -/
def specSideOverlap (sorted : List PhotoMetadata) (groundWidth : ℝ) : ℝ :=
  let contribs := (List.range sorted.length).filterMap
    (specSideContribution sorted groundWidth)
  if contribs.isEmpty then 0 else contribs.sum / (contribs.length : ℝ)

/-- The result record of `calculateFlightCurvature` (src/utils.ts 138-142). -/
structure CurvatureResult where
  avg : ℝ
  max : ℝ
  maxPhotoName : Option String
deriving DecidableEq

/-- The mutable state of the curvature loop (src/utils.ts lines 99-102). -/
structure CurvAcc where
  totalDeviation : ℝ
  count : ℕ
  maxDeviation : ℝ
  maxPhotoName : Option String

/-- The body of the curvature loop (src/utils.ts lines 109-136) over the
triple index `i`: both segment distances must exceed 5 m, the absolute
bearing difference is folded to `≤ 180`, and deviations at or above the
turn threshold are discarded; a kept deviation enters the total and, when
it exceeds the running maximum, becomes the maximum with `p2`'s name. -/
def curvStep (sorted : List PhotoMetadata) (turnThreshold : ℝ)
    (st : CurvAcc) (i : ℕ) : CurvAcc :=
  let p1 := sorted.getD i default
  let p2 := sorted.getD (i + 1) default
  let p3 := sorted.getD (i + 2) default
  let dist1 := calculateDistance p1.pos p2.pos
  let dist2 := calculateDistance p2.pos p3.pos
  if 5 < dist1 ∧ 5 < dist2 then
    let b1 := calculateBearing p1.pos p2.pos
    let b2 := calculateBearing p2.pos p3.pos
    let diff := foldTo180 |b1 - b2|
    if diff < turnThreshold then
      { totalDeviation := st.totalDeviation + diff
        count := st.count + 1
        maxDeviation := if st.maxDeviation < diff then diff else st.maxDeviation
        maxPhotoName := if st.maxDeviation < diff then some p2.name else st.maxPhotoName }
    else st
  else st

/-- `calculateFlightCurvature` (src/utils.ts lines 95-143). -/
def calculateFlightCurvature (photos : List PhotoMetadata)
    (excludeTurns : Bool := false) : CurvatureResult :=
  if photos.length < 3 then { avg := 0, max := 0, maxPhotoName := none }
  else
    let sorted := sortByTimestamp photos
    let turnThreshold : ℝ := if excludeTurns then 10 else 20
    let st := (List.range (sorted.length - 2)).foldl
      (curvStep sorted turnThreshold) ⟨0, 0, 0, none⟩
    { avg := if 0 < st.count then st.totalDeviation / (st.count : ℝ) else 0
      max := st.maxDeviation
      maxPhotoName := st.maxPhotoName }

/-- The angular deviation of the consecutive triple at index `i`:
`|bearing(p1,p2) - bearing(p2,p3)|` folded to `≤ 180`. -/
def curvDeviation (sorted : List PhotoMetadata) (i : ℕ) : ℝ :=
  foldTo180 |calculateBearing (sorted.getD i default).pos
      (sorted.getD (i + 1) default).pos -
    calculateBearing (sorted.getD (i + 1) default).pos
      (sorted.getD (i + 2) default).pos|

/-- A triple qualifies when both of its segment distances exceed 5 m. -/
def curvQualifies (sorted : List PhotoMetadata) (i : ℕ) : Prop :=
  5 < calculateDistance (sorted.getD i default).pos
      (sorted.getD (i + 1) default).pos ∧
  5 < calculateDistance (sorted.getD (i + 1) default).pos
      (sorted.getD (i + 2) default).pos

/-- The `(deviation, vertex-photo name)` pairs of the qualifying triples, in
path order. -/
def curvDevPairs (sorted : List PhotoMetadata) : List (ℝ × String) :=
  ((List.range (sorted.length - 2)).filter
      (fun i => curvQualifies sorted i)).map
    (fun i => (curvDeviation sorted i, (sorted.getD (i + 1) default).name))

/-- The deviations kept after discarding those at or above the threshold. -/
def keptDevPairs (sorted : List PhotoMetadata) (turnThreshold : ℝ) :
    List (ℝ × String) :=
  (curvDevPairs sorted).filter (fun x => x.1 < turnThreshold)

/-- The curvature analyzer as the (amended) claim describes it: zeros when
fewer than 3 photos; otherwise the kept deviations of qualifying triples
are averaged, the largest is reported, and `maxPhotoName` is the vertex
photo of the first triple attaining the largest deviation when that
deviation is positive, `none` when every kept deviation is zero or no
triple qualifies. -/
def specCurvature (photos : List PhotoMetadata) (excludeTurns : Bool) :
    CurvatureResult :=
  if photos.length < 3 then { avg := 0, max := 0, maxPhotoName := none }
  else
    let sorted := sortByTimestamp photos
    let turnThreshold : ℝ := if excludeTurns then 10 else 20
    let kept := keptDevPairs sorted turnThreshold
    let maxDev := (kept.map Prod.fst).foldl max 0
    { avg := if kept.isEmpty then 0 else (kept.map Prod.fst).sum / (kept.length : ℝ)
      max := maxDev
      maxPhotoName :=
        if 0 < maxDev then (kept.find? (fun x => x.1 = maxDev)).map Prod.snd
        else none }

/-- One step of the running `(maxDeviation, maxPhotoName)` update of the
curvature loop (src/utils.ts lines 130-133): a strictly larger deviation
replaces both the maximum and the recorded vertex name. -/
def recordStep (q : ℝ × Option String) (x : ℝ × String) : ℝ × Option String :=
  if q.1 < x.1 then (x.1, some x.2) else q

/-- First photo of the straight-meridian counterexample path. -/
def cexQ1 : PhotoMetadata :=
  { name := "P1", lat := 0, lng := 0, alt := 100, timestamp := 0, rtkStatus := none }

/-- Second (vertex) photo of the straight-meridian counterexample path. -/
def cexQ2 : PhotoMetadata :=
  { name := "P2", lat := 1, lng := 0, alt := 100, timestamp := 1, rtkStatus := none }

/-- Third photo of the straight-meridian counterexample path. -/
def cexQ3 : PhotoMetadata :=
  { name := "P3", lat := 2, lng := 0, alt := 100, timestamp := 2, rtkStatus := none }

/-- Drone profile used by the witness instantiations. -/
def wDrone : DroneSpecs :=
  { name := "DJI Mini 3 Pro", sensorWidth := 9.7, sensorHeight := 7.3,
    focalLength := 6.7 }

/-- First photo of the witness collection. -/
def wPhoto1 : PhotoMetadata :=
  { name := "W1", lat := 0, lng := 0, alt := 100, timestamp := 0, rtkStatus := none }

/-- Second photo of the witness collection. -/
def wPhoto2 : PhotoMetadata :=
  { name := "W2", lat := 0, lng := 1, alt := 100, timestamp := 1000, rtkStatus := none }

end

/-- `distance(p,p) = 0`: at equal points both haversine terms vanish. -/
theorem calculateDistance_self (p : GeoPoint) : calculateDistance p p = 0 := by
  unfold calculateDistance atan2 toRad
  simp [Real.sqrt_eq_zero']

/-- Symmetry of the haversine distance: swapping the points negates the
angle differences, and `sin` squared is even. -/
theorem calculateDistance_comm (p q : GeoPoint) :
    calculateDistance p q = calculateDistance q p := by
  unfold calculateDistance
  have hlat : toRad (p.lat - q.lat) / 2 = -(toRad (q.lat - p.lat) / 2) := by
    unfold toRad; ring
  have hlng : toRad (p.lng - q.lng) / 2 = -(toRad (q.lng - p.lng) / 2) := by
    unfold toRad; ring
  simp only [hlat, hlng, Real.sin_neg]
  ring_nf

/-- Pointwise-equal step functions fold to equal results. -/
theorem foldl_ext' {α β : Type _} (f g : α → β → α) (l : List β)
    (H : ∀ a b, f a b = g a b) (a : α) : l.foldl f a = l.foldl g a := by
  induction l generalizing a with
  | nil => rfl
  | cons x t ih => simp only [List.foldl_cons, H, ih]

/-- A fold whose step fires only on elements satisfying `p` is a fold over
the filtered list. -/
theorem foldl_if_filter {α β : Type _} (p : α → Prop) [DecidablePred p]
    (g : β → α → β) (l : List α) (b : β) :
    l.foldl (fun acc x => if p x then g acc x else acc) b =
      (l.filter (fun x => p x)).foldl g b := by
  induction l generalizing b with
  | nil => rfl
  | cons x t ih =>
    by_cases h : p x <;> simp [List.filter_cons, h, ih]

/-- Accumulating a sum and a count over a list in one pass. -/
theorem foldl_sum_count {α : Type _} (f : α → ℝ) (l : List α) (a : ℝ) (k : ℕ) :
    l.foldl (fun acc x => (acc.1 + f x, acc.2 + 1)) (a, k) =
      (a + (l.map f).sum, k + l.length) := by
  induction l generalizing a k with
  | nil => simp
  | cons x t ih =>
    simp only [List.foldl_cons, ih, List.map_cons, List.sum_cons, List.length_cons,
      Prod.mk.injEq]
    exact ⟨by ring, by omega⟩

/-- The running-minimum fold started from a finite value. -/
theorem foldl_minUpd_some (l : List ℝ) (m : ℝ) :
    l.foldl minUpd (some m) = some (l.foldl min m) := by
  induction l generalizing m with
  | nil => rfl
  | cons x t ih =>
    simp only [List.foldl_cons, minUpd]
    by_cases h : x < m
    · rw [if_pos h, ih, min_eq_right (le_of_lt h)]
    · rw [if_neg h, ih, min_eq_left (not_lt.mp h)]

/-- The running-minimum fold started from `Infinity` computes the minimum. -/
theorem foldl_minUpd_none (l : List ℝ) : l.foldl minUpd none = listMin l := by
  cases l with
  | nil => rfl
  | cons x t =>
    simp only [List.foldl_cons, listMin]
    exact foldl_minUpd_some t x

/-- The running-maximum fold never drops below its initial value. -/
theorem le_foldl_max (l : List ℝ) (a : ℝ) : a ≤ l.foldl max a := by
  induction l generalizing a with
  | nil => exact le_refl a
  | cons x t ih => exact le_trans (le_max_left a x) (ih (max a x))

/-- Every member of the list is bounded by the running-maximum fold. -/
theorem mem_le_foldl_max (l : List ℝ) (a x : ℝ) (hx : x ∈ l) :
    x ≤ l.foldl max a := by
  induction l generalizing a with
  | nil => cases hx
  | cons y t ih =>
    rcases List.mem_cons.mp hx with h | h
    · subst h; exact le_trans (le_max_right a x) (le_foldl_max t _)
    · exact ih _ h

/-- When the initial value dominates the list, the maximum fold returns it. -/
theorem foldl_max_eq_of_forall_le (l : List ℝ) (a : ℝ) (h : ∀ x ∈ l, x ≤ a) :
    l.foldl max a = a := by
  induction l with
  | nil => rfl
  | cons y t ih =>
    have hy : y ≤ a := h y (List.mem_cons_self y t)
    simp only [List.foldl_cons, max_eq_left hy]
    exact ih (fun x hx => h x (List.mem_cons_of_mem y hx))

/-- The maximum fold returns its initial value or a member of the list. -/
theorem foldl_max_eq_or_mem (l : List ℝ) (a : ℝ) :
    l.foldl max a = a ∨ l.foldl max a ∈ l := by
  induction l generalizing a with
  | nil => exact Or.inl rfl
  | cons y t ih =>
    rcases ih (max a y) with h | h
    · by_cases hy : a ≤ y
      · right
        rw [List.foldl_cons, h, max_eq_right hy]
        exact List.mem_cons_self y t
      · left
        rw [List.foldl_cons, h, max_eq_left (le_of_not_le hy)]
    · right
      rw [List.foldl_cons]
      exact List.mem_cons_of_mem y h

/-- The maximum fold is monotone in its initial value. -/
theorem foldl_max_mono_init (l : List ℝ) (a b : ℝ) (hab : a ≤ b) :
    l.foldl max a ≤ l.foldl max b := by
  induction l generalizing a b with
  | nil => exact hab
  | cons x t ih =>
    exact ih (max a x) (max b x) (max_le_max hab (le_refl x))

/-- The maximum fold is monotone under sublist inclusion. -/
theorem foldl_max_le_sublist (l₁ l₂ : List ℝ) (h : l₁.Sublist l₂) (a : ℝ) :
    l₁.foldl max a ≤ l₂.foldl max a := by
  induction h generalizing a with
  | slnil => exact le_refl _
  | cons x _ ih =>
    exact le_trans (ih a) (foldl_max_mono_init _ _ _ (le_max_left a x))
  | cons₂ x _ ih => exact ih (max a x)

/-- Filtering with a stronger predicate yields a sublist of filtering with a
weaker one. -/
theorem filter_sublist_of_imp {α : Type _} (l : List α) (p q : α → Bool)
    (h : ∀ x, p x = true → q x = true) :
    (l.filter p).Sublist (l.filter q) := by
  induction l with
  | nil => simp
  | cons x t ih =>
    by_cases hp : p x = true
    · have hq := h x hp
      simp only [List.filter_cons, hp, hq, if_true]
      exact ih.cons₂ x
    · by_cases hq : q x = true
      · simp only [List.filter_cons, hp, hq, if_true, if_false]
        exact ih.cons x
      · simp only [List.filter_cons, hp, hq, if_false]
        exact ih

/-- A list of nonnegative reals has a nonnegative sum. -/
theorem list_sum_nonneg' (l : List ℝ) (h : ∀ x ∈ l, 0 ≤ x) : 0 ≤ l.sum := by
  induction l with
  | nil => simp
  | cons x t ih =>
    simp only [List.sum_cons]
    have := h x (List.mem_cons_self x t)
    have := ih (fun y hy => h y (List.mem_cons_of_mem x hy))
    linarith

/-- A list bounded above by `c` has sum at most `length × c`. -/
theorem list_sum_le_length_mul (l : List ℝ) (c : ℝ) (h : ∀ x ∈ l, x ≤ c) :
    l.sum ≤ (l.length : ℝ) * c := by
  induction l with
  | nil => simp
  | cons x t ih =>
    simp only [List.sum_cons, List.length_cons]
    have hx := h x (List.mem_cons_self x t)
    have ht := ih (fun y hy => h y (List.mem_cons_of_mem x hy))
    push_cast
    linarith

/-- The average of a nonempty list with members in `[0, c]` lies in `[0, c]`. -/
theorem avg_bounds (l : List ℝ) (c : ℝ) (hne : l ≠ [])
    (h : ∀ x ∈ l, 0 ≤ x ∧ x ≤ c) :
    0 ≤ l.sum / (l.length : ℝ) ∧ l.sum / (l.length : ℝ) ≤ c := by
  have hlen : (0 : ℝ) < (l.length : ℝ) := by
    have : 0 < l.length := List.length_pos.mpr hne
    exact_mod_cast this
  constructor
  · exact div_nonneg (list_sum_nonneg' l (fun x hx => (h x hx).1)) (le_of_lt hlen)
  · rw [div_le_iff₀ hlen]
    calc l.sum ≤ (l.length : ℝ) * c :=
          list_sum_le_length_mul l c (fun x hx => (h x hx).2)
      _ = c * (l.length : ℝ) := by ring

/-- `atan2` of a nonnegative ordinate is nonnegative. -/
theorem atan2_nonneg (y x : ℝ) (hy : 0 ≤ y) : 0 ≤ atan2 y x := by
  unfold atan2
  split_ifs with h1 h2 h3 h4 h5
  · have hq : (0 : ℝ) ≤ y / x := div_nonneg hy (le_of_lt h1)
    calc (0 : ℝ) = Real.arctan 0 := Real.arctan_zero.symm
      _ ≤ _ := Real.arctan_strictMono.monotone hq
  · have h := Real.neg_pi_div_two_lt_arctan (y / x)
    have hπ := Real.pi_pos
    linarith
  · exact absurd h3.2 (not_lt.mpr hy)
  · have hπ := Real.pi_pos
    linarith
  · exact absurd h5.2 (not_lt.mpr hy)
  · exact le_refl 0

/-- `atan2` takes values in `(-π, π]`. -/
theorem atan2_bounds (y x : ℝ) :
    -Real.pi < atan2 y x ∧ atan2 y x ≤ Real.pi := by
  have hπ := Real.pi_pos
  unfold atan2
  split_ifs with h1 h2 h3 h4 h5
  · have ha := Real.arctan_lt_pi_div_two (y / x)
    have hb := Real.neg_pi_div_two_lt_arctan (y / x)
    constructor <;> linarith
  · have ha : Real.arctan (y / x) ≤ 0 := by
      have hq : y / x ≤ 0 :=
        div_nonpos_iff.mpr (Or.inl ⟨h2.2, le_of_lt h2.1⟩)
      calc Real.arctan (y / x) ≤ Real.arctan 0 :=
            Real.arctan_strictMono.monotone hq
        _ = 0 := Real.arctan_zero
    have hb := Real.neg_pi_div_two_lt_arctan (y / x)
    constructor <;> linarith
  · have ha : 0 < Real.arctan (y / x) := by
      have hq : 0 < y / x := div_pos_iff.mpr (Or.inr ⟨h3.2, h3.1⟩)
      calc (0 : ℝ) = Real.arctan 0 := Real.arctan_zero.symm
        _ < _ := Real.arctan_strictMono hq
    have hb := Real.arctan_lt_pi_div_two (y / x)
    constructor <;> linarith
  · constructor <;> linarith
  · constructor <;> linarith
  · constructor <;> linarith

/-- The haversine distance is nonnegative (in this embedding `Real.sqrt` is
total, so this holds for all inputs). -/
theorem calculateDistance_nonneg (p q : GeoPoint) :
    0 ≤ calculateDistance p q := by
  simp only [calculateDistance]
  exact mul_nonneg (by norm_num [R])
    (mul_nonneg (by norm_num) (atan2_nonneg _ _ (Real.sqrt_nonneg _)))

/-- The JavaScript remainder by 360 of a nonnegative number lies in
`[0, 360)`. -/
theorem jsMod_bounds (x : ℝ) (hx : 0 ≤ x) :
    0 ≤ jsMod x 360 ∧ jsMod x 360 < 360 := by
  unfold jsMod rtrunc
  have hq : 0 ≤ x / 360 := by positivity
  rw [if_pos hq]
  have key : x - 360 * (⌊x / 360⌋ : ℝ) = 360 * Int.fract (x / 360) := by
    rw [Int.fract]
    ring
  rw [key]
  constructor
  · exact mul_nonneg (by norm_num) (Int.fract_nonneg _)
  · have h1 := Int.fract_lt_one (x / 360)
    nlinarith

/-- The bearing formula lands in `[0, 360)`. -/
theorem calculateBearing_bounds (p q : GeoPoint) :
    0 ≤ calculateBearing p q ∧ calculateBearing p q < 360 := by
  have key : ∀ y x : ℝ,
      0 ≤ jsMod (toDeg (atan2 y x) + 360) 360 ∧
        jsMod (toDeg (atan2 y x) + 360) 360 < 360 := by
    intro y x
    apply jsMod_bounds
    have h2 := (atan2_bounds y x).1
    have hπ := Real.pi_pos
    have hdeg : -180 < toDeg (atan2 y x) := by
      unfold toDeg
      rw [show (-180 : ℝ) = -Real.pi * 180 / Real.pi by field_simp; ring]
      apply div_lt_div_of_pos_right ?_ hπ
      nlinarith
    linarith
  exact key _ _

/-- Folding a value in `[0, 360)` onto `[0, 180]` lands in `[0, 180]`. -/
theorem foldTo180_bounds (d : ℝ) (h0 : 0 ≤ d) (h360 : d < 360) :
    0 ≤ foldTo180 d ∧ foldTo180 d ≤ 180 := by
  unfold foldTo180
  split_ifs with h
  · constructor <;> linarith
  · exact ⟨h0, by linarith [not_lt.mp h]⟩

/-- Every curvature deviation lies in `[0, 180]`. -/
theorem curvDeviation_bounds (sorted : List PhotoMetadata) (i : ℕ) :
    0 ≤ curvDeviation sorted i ∧ curvDeviation sorted i ≤ 180 := by
  unfold curvDeviation
  set b1 := calculateBearing (sorted.getD i default).pos
    (sorted.getD (i + 1) default).pos with hb1
  set b2 := calculateBearing (sorted.getD (i + 1) default).pos
    (sorted.getD (i + 2) default).pos with hb2
  have h1 := calculateBearing_bounds (sorted.getD i default).pos
    (sorted.getD (i + 1) default).pos
  have h2 := calculateBearing_bounds (sorted.getD (i + 1) default).pos
    (sorted.getD (i + 2) default).pos
  rw [← hb1] at h1
  rw [← hb2] at h2
  apply foldTo180_bounds
  · exact abs_nonneg _
  · rw [abs_lt]
    constructor <;> linarith [h1.1, h1.2, h2.1, h2.2]

/-- The forward-overlap loop body, rewritten through `pairDist`. -/
theorem forwardStep_eq (sorted : List PhotoMetadata) (gh : ℝ) (acc : ℝ × ℕ)
    (i : ℕ) :
    forwardStep sorted gh acc i =
      if pairDist sorted i < gh * 2 then
        (acc.1 + max 0 ((1 - pairDist sorted i / gh) * 100), acc.2 + 1)
      else acc := rfl

/-- The forward-overlap loop accumulates the sum and count of the overlap
terms of exactly the qualifying pairs. -/
theorem forward_fold_char (sorted : List PhotoMetadata) (gh : ℝ) (L : List ℕ)
    (a : ℝ) (k : ℕ) :
    L.foldl (forwardStep sorted gh) (a, k) =
      (a + (((L.map (pairDist sorted)).filter (fun d => d < gh * 2)).map
          (fun d => max 0 ((1 - d / gh) * 100))).sum,
        k + ((L.map (pairDist sorted)).filter (fun d => d < gh * 2)).length) := by
  induction L generalizing a k with
  | nil => simp
  | cons i L ih =>
    rw [List.foldl_cons, forwardStep_eq]
    simp only [List.map_cons, List.filter_cons, decide_eq_true_eq]
    by_cases h : pairDist sorted i < gh * 2
    · rw [if_pos h, if_pos h, ih]
      simp only [List.map_cons, List.sum_cons, List.length_cons, Prod.mk.injEq]
      exact ⟨by ring, by omega⟩
    · rw [if_neg h, if_neg h, ih]

/-- C4: for every collection of at least 2 photos, the forward overlap is the
average of `max(0, (1 - d/groundHeight) × 100)` over exactly those
consecutive temporal pairs of the timestamp-sorted collection whose distance
satisfies `d < 2·groundHeight`; other pairs are excluded from both the sum
and the divisor, and the result is 0 when no pair qualifies. -/
theorem calculateOverlaps_forward_eq_spec (photos : List PhotoMetadata)
    (drone : DroneSpecs) (relativeHeight : ℝ) (h2 : 2 ≤ photos.length) :
    (calculateOverlaps photos drone relativeHeight).forward =
      specForwardOverlap (sortByTimestamp photos)
        (drone.sensorHeight * relativeHeight / drone.focalLength) := by
  have hn : ¬ photos.length < 2 := not_lt.mpr h2
  simp only [calculateOverlaps]
  rw [if_neg hn]
  simp only [forward_fold_char, zero_add, specForwardOverlap, consecDistances]
  set sorted := sortByTimestamp photos with hsorted
  set gh := drone.sensorHeight * relativeHeight / drone.focalLength with hgh
  have hpred : ((List.range (sorted.length - 1)).map (pairDist sorted)).filter
        (fun d => d < gh * 2) =
      ((List.range (sorted.length - 1)).map (pairDist sorted)).filter
        (fun d => d < 2 * gh) := by
    apply List.filter_congr
    intro d _
    rw [decide_eq_decide, mul_comm]
  rw [hpred]
  cases hq : ((List.range (sorted.length - 1)).map (pairDist sorted)).filter
      (fun d => d < 2 * gh) with
  | nil => simp [hq]
  | cons x t => simp [hq]

/-- C4 witness: a concrete two-photo collection satisfying the hypothesis. -/
theorem calculateOverlaps_forward_eq_spec_witness :
    2 ≤ ([wPhoto1, wPhoto2] : List PhotoMetadata).length ∧
      (calculateOverlaps [wPhoto1, wPhoto2] wDrone 100).forward =
        specForwardOverlap (sortByTimestamp [wPhoto1, wPhoto2])
          (wDrone.sensorHeight * 100 / wDrone.focalLength) :=
  ⟨by simp, calculateOverlaps_forward_eq_spec [wPhoto1, wPhoto2] wDrone 100 (by simp)⟩

/-- The inner neighbor scan fires exactly on the claim's candidate set. -/
theorem innerSideStep_eq (sorted : List PhotoMetadata) (gw : ℝ) (i : ℕ)
    (m : Option ℝ) (j : ℕ) :
    innerSideStep sorted gw i (sorted.getD i default) (sideHeading sorted i) m j =
      if isSideCandidate sorted gw i j then
        minUpd m (calculateDistance (sorted.getD i default).pos
          (sorted.getD j default).pos)
      else m := by
  simp only [innerSideStep, isSideCandidate]
  by_cases h1 : |(i : ℤ) - (j : ℤ)| < 20
  · rw [if_pos h1, if_neg (fun hc => absurd hc.1 (not_le.mpr h1))]
  · rw [if_neg h1]
    by_cases h2 : calculateDistance (sorted.getD i default).pos
        (sorted.getD j default).pos > gw * 3
    · rw [if_pos h2,
        if_neg (fun hc => absurd hc.2.1 (by rw [mul_comm]; exact not_le.mpr h2))]
    · rw [if_neg h2]
      by_cases h3 : 45 < foldTo180 |sideHeading sorted i -
          calculateBearing (sorted.getD i default).pos (sorted.getD j default).pos| ∧
          foldTo180 |sideHeading sorted i -
            calculateBearing (sorted.getD i default).pos (sorted.getD j default).pos| < 135
      · rw [if_pos h3,
          if_pos ⟨not_lt.mp h1, by rw [mul_comm]; exact not_lt.mp h2, h3.1, h3.2⟩]
      · rw [if_neg h3, if_neg (fun hc => h3 ⟨hc.2.2.1, hc.2.2.2⟩)]

/-- The inner neighbor scan computes the minimum distance over exactly the
candidate set. -/
theorem inner_fold_char (sorted : List PhotoMetadata) (gw : ℝ) (i : ℕ)
    (L : List ℕ) (m : Option ℝ) :
    L.foldl (innerSideStep sorted gw i (sorted.getD i default)
        (sideHeading sorted i)) m =
      ((L.filter (fun j => isSideCandidate sorted gw i j)).map
        (fun j => calculateDistance (sorted.getD i default).pos
          (sorted.getD j default).pos)).foldl minUpd m := by
  induction L generalizing m with
  | nil => rfl
  | cons j L ih =>
    rw [List.foldl_cons, innerSideStep_eq]
    simp only [List.filter_cons, decide_eq_true_eq]
    by_cases h : isSideCandidate sorted gw i j
    · rw [if_pos h, if_pos h, List.map_cons, List.foldl_cons, ih]
    · rw [if_neg h, if_neg h, ih]

/-- The side-overlap loop body in terms of the claim's per-photo
contribution. -/
theorem sideStep_eq (sorted : List PhotoMetadata) (gw : ℝ) (acc : ℝ × ℕ)
    (i : ℕ) :
    sideStep sorted gw acc i =
      match specSideContribution sorted gw i with
      | none => acc
      | some v => (acc.1 + v, acc.2 + 1) := by
  simp only [sideStep, inner_fold_char, foldl_minUpd_none, specSideContribution,
    specMinSideDist]
  cases h : listMin (((List.range sorted.length).filter
      (fun j => isSideCandidate sorted gw i j)).map
    (fun j => calculateDistance (sorted.getD i default).pos
      (sorted.getD j default).pos)) with
  | none => simp [h]
  | some md => simp [h]

/-- The side-overlap loop accumulates the sum and count of the per-photo
contributions. -/
theorem side_fold_char (sorted : List PhotoMetadata) (gw : ℝ) (L : List ℕ)
    (a : ℝ) (k : ℕ) :
    L.foldl (sideStep sorted gw) (a, k) =
      (a + (L.filterMap (specSideContribution sorted gw)).sum,
        k + (L.filterMap (specSideContribution sorted gw)).length) := by
  induction L generalizing a k with
  | nil => simp
  | cons i L ih =>
    rw [List.foldl_cons, sideStep_eq]
    simp only [List.filterMap_cons]
    cases h : specSideContribution sorted gw i with
    | none => exact ih a k
    | some v =>
      rw [ih]
      simp only [List.sum_cons, List.length_cons, Prod.mk.injEq]
      exact ⟨by ring, by omega⟩

/-- C3: for a collection of at least 2 photos, the side overlap is computed
from exactly the claim's candidate set: candidates for photo `i` are the
photos `j` with `|i - j| ≥ 20`, `distance(i,j) ≤ 3·groundWidth`, and bearing
from `i` to `j` differing from `i`'s local heading by an angle in `(45,135)`
after folding to `[0,180]`; photo `i` contributes
`clamp(0, 100, (1 - minSideDist/groundWidth) × 100)` from the minimum
candidate distance, a photo with no candidate contributes nothing, and the
reported side overlap is the average over contributing photos (0 when none
contribute). -/
theorem calculateOverlaps_side_eq_spec (photos : List PhotoMetadata)
    (drone : DroneSpecs) (relativeHeight : ℝ) (h2 : 2 ≤ photos.length) :
    (calculateOverlaps photos drone relativeHeight).side =
      specSideOverlap (sortByTimestamp photos)
        (drone.sensorWidth * relativeHeight / drone.focalLength) := by
  have hn : ¬ photos.length < 2 := not_lt.mpr h2
  simp only [calculateOverlaps]
  rw [if_neg hn]
  simp only [side_fold_char, zero_add, specSideOverlap]
  cases hq : (List.range (sortByTimestamp photos).length).filterMap
      (specSideContribution (sortByTimestamp photos)
        (drone.sensorWidth * relativeHeight / drone.focalLength)) with
  | nil => simp [hq]
  | cons x t => simp [hq]

/-- C3 witness: a concrete two-photo collection satisfying the hypothesis. -/
theorem calculateOverlaps_side_eq_spec_witness :
    2 ≤ ([wPhoto1, wPhoto2] : List PhotoMetadata).length ∧
      (calculateOverlaps [wPhoto1, wPhoto2] wDrone 100).side =
        specSideOverlap (sortByTimestamp [wPhoto1, wPhoto2])
          (wDrone.sensorWidth * 100 / wDrone.focalLength) :=
  ⟨by simp, calculateOverlaps_side_eq_spec [wPhoto1, wPhoto2] wDrone 100 (by simp)⟩

/-- C9: the haversine `distance` with Earth radius 6,371,000 m is symmetric,
and `distance(p,p) = 0` for every point `p`. -/
theorem distance_symm_self_zero (p q : GeoPoint) :
    calculateDistance p q = calculateDistance q p ∧ calculateDistance p p = 0 :=
  ⟨calculateDistance_comm p q, calculateDistance_self p⟩

/-- Skipping the `none` entries of a fold is folding over `filterMap`. -/
theorem foldl_skip_none {α β γ : Type _} (f : α → Option β) (g : γ → β → γ)
    (l : List α) (b : γ) :
    l.foldl (fun m x => match f x with | none => m | some e => g m e) b =
      (l.filterMap f).foldl g b := by
  induction l generalizing b with
  | nil => rfl
  | cons x t ih =>
    simp only [List.foldl_cons, List.filterMap_cons]
    cases f x with
    | none => exact ih b
    | some e => exact ih (g b e)

/-- C8: the telemetry parser maps each line beginning with a decimal index
followed by whitespace to a status determined by its content ("50,Q" →
Fixed, else "20,Q"/"34,Q" → Float, else Single), silently skips lines
without a leading index, and on the log
"1  ...50,Q...\n2  ...34,Q...\n3  ...99,Q...\n" yields the map
{1: Fixed, 2: Float, 3: Single}. -/
theorem parseMrkContent_spec :
    (∀ content : List Char, parseMrkContent content = specParseMrk content) ∧
      parseMrkContent mrkScenario =
        [(1, RtkStatus.FIXED), (2, RtkStatus.FLOAT), (3, RtkStatus.SINGLE)] := by
  constructor
  · intro content
    simp only [parseMrkContent, specParseMrk]
    rw [← foldl_skip_none specLineEntry (fun m e => mapSet m e.1 e.2)]
    congr 1
    funext map line
    simp only [specLineEntry, specClassify]
    by_cases hempty : (jsTrim line).isEmpty
    · have hnil : jsTrim line = [] := by
        cases h : jsTrim line with
        | nil => rfl
        | cons c t => rw [h] at hempty; simp [List.isEmpty] at hempty
      simp [hempty, hnil, leadIndex]
    · cases h : leadIndex (jsTrim line) with
      | none => simp [hempty, h]
      | some i => simp [hempty, h]
  · decide

/-- C1 counterexample: in a two-photo collection whose first photo carries no
RTK annotation but whose second is FIXED, the engine reports the sentinel
-1, although a photo in the collection carries an RTK status annotation and
100 × fixedCount / total = 50 ≠ -1. -/
theorem rtkFixedRatio_first_photo_cex :
    rtkFixedRatio [cexPhotoA, cexPhotoB] = -1 ∧
      (∃ p ∈ [cexPhotoA, cexPhotoB], p.rtkStatus ≠ none) ∧
      100 * (countFixed [cexPhotoA, cexPhotoB] : ℝ) /
          (([cexPhotoA, cexPhotoB] : List PhotoMetadata).length : ℝ) = 50 ∧
      (-1 : ℝ) ≠ 50 := by
  refine ⟨?_, ⟨cexPhotoB, by simp [cexPhotoB]⟩, ?_, by norm_num⟩
  · simp [rtkFixedRatio, cexPhotoA]
  · have h1 : countFixed [cexPhotoA, cexPhotoB] = 1 := by
      simp [countFixed, cexPhotoA, cexPhotoB]
    rw [h1]
    norm_num

/-- C1 (amended): for every non-empty photo collection, `rtkFixedRatio` is
the sentinel -1 if and only if the *first* photo of the collection carries
no RTK status annotation; otherwise it equals
100 × (number of FIXED photos) / (total number of photos). -/
theorem rtkFixedRatio_amended (p0 : PhotoMetadata) (rest : List PhotoMetadata) :
    (rtkFixedRatio (p0 :: rest) = -1 ↔ p0.rtkStatus = none) ∧
      (p0.rtkStatus ≠ none →
        rtkFixedRatio (p0 :: rest) =
          100 * (countFixed (p0 :: rest) : ℝ) / (((p0 :: rest).length : ℕ) : ℝ)) := by
  by_cases h : p0.rtkStatus = none
  · constructor
    · simp [rtkFixedRatio, h]
    · intro hc; exact absurd h hc
  · obtain ⟨s, hs⟩ := Option.ne_none_iff_exists'.mp h
    have hval : rtkFixedRatio (p0 :: rest) =
        ((countFixed (p0 :: rest) : ℝ) / (((p0 :: rest).length : ℕ) : ℝ)) * 100 := by
      simp [rtkFixedRatio, hs]
    constructor
    · rw [hval]
      constructor
      · intro habs
        exfalso
        have hnn : (0 : ℝ) ≤ ((countFixed (p0 :: rest) : ℝ) / (((p0 :: rest).length : ℕ) : ℝ)) * 100 := by
          positivity
        rw [habs] at hnn
        norm_num at hnn
      · intro hc; exact absurd hc h
    · intro _
      rw [hval]; ring

/-- The curvature loop body, rewritten through `curvQualifies` and
`curvDeviation`. -/
theorem curvStep_eq (sorted : List PhotoMetadata) (θ : ℝ) (st : CurvAcc) (i : ℕ) :
    curvStep sorted θ st i =
      if curvQualifies sorted i ∧ curvDeviation sorted i < θ then
        { totalDeviation := st.totalDeviation + curvDeviation sorted i
          count := st.count + 1
          maxDeviation :=
            if st.maxDeviation < curvDeviation sorted i then curvDeviation sorted i
            else st.maxDeviation
          maxPhotoName :=
            if st.maxDeviation < curvDeviation sorted i then
              some (sorted.getD (i + 1) default).name
            else st.maxPhotoName }
      else st := by
  simp only [curvStep, curvQualifies, curvDeviation]
  split_ifs <;> first | rfl | tauto

/-- The curvature loop accumulates total, count, running maximum and the
record fold of the kept deviations. -/
theorem curv_fold_char (sorted : List PhotoMetadata) (θ : ℝ) (L : List ℕ)
    (st : CurvAcc) :
    L.foldl (curvStep sorted θ) st =
      { totalDeviation := st.totalDeviation +
          ((((L.filter (fun i => curvQualifies sorted i ∧
              curvDeviation sorted i < θ)).map
            (fun i => (curvDeviation sorted i,
              (sorted.getD (i + 1) default).name))).map Prod.fst)).sum
        count := st.count +
          ((L.filter (fun i => curvQualifies sorted i ∧
              curvDeviation sorted i < θ)).map
            (fun i => (curvDeviation sorted i,
              (sorted.getD (i + 1) default).name))).length
        maxDeviation :=
          (((L.filter (fun i => curvQualifies sorted i ∧
              curvDeviation sorted i < θ)).map
            (fun i => (curvDeviation sorted i,
              (sorted.getD (i + 1) default).name))).foldl
              recordStep (st.maxDeviation, st.maxPhotoName)).1
        maxPhotoName :=
          (((L.filter (fun i => curvQualifies sorted i ∧
              curvDeviation sorted i < θ)).map
            (fun i => (curvDeviation sorted i,
              (sorted.getD (i + 1) default).name))).foldl
              recordStep (st.maxDeviation, st.maxPhotoName)).2 } := by
  induction L generalizing st with
  | nil => simp
  | cons i L ih =>
    rw [List.foldl_cons, curvStep_eq]
    simp only [List.filter_cons, decide_eq_true_eq]
    by_cases h : curvQualifies sorted i ∧ curvDeviation sorted i < θ
    · rw [if_pos h, if_pos h, ih]
      have hinit :
          ((if st.maxDeviation < curvDeviation sorted i then curvDeviation sorted i
            else st.maxDeviation),
            (if st.maxDeviation < curvDeviation sorted i then
              some (sorted.getD (i + 1) default).name
            else st.maxPhotoName)) =
            recordStep (st.maxDeviation, st.maxPhotoName)
              (curvDeviation sorted i, (sorted.getD (i + 1) default).name) := by
        by_cases hm : st.maxDeviation < curvDeviation sorted i <;>
          simp [recordStep, hm]
      simp only [List.map_cons, List.sum_cons, List.length_cons, List.foldl_cons,
        CurvAcc.mk.injEq, hinit]
      and_intros <;> first | trivial | ring
    · rw [if_neg h, if_neg h, ih]

/-- The running `(max, name)` record fold returns the maximum of the list
(against the initial value) and the name of the first element attaining it,
provided some element strictly exceeds the initial maximum; otherwise the
initial name survives. -/
theorem recordFold_char (l : List (ℝ × String)) (m : ℝ) (nm : Option String) :
    l.foldl recordStep (m, nm) =
      ((l.map Prod.fst).foldl max m,
        if ∃ x ∈ l, m < x.1 then
          (l.find? (fun x => x.1 = (l.map Prod.fst).foldl max m)).map Prod.snd
        else nm) := by
  induction l generalizing m nm with
  | nil => simp
  | cons x t ih =>
    rw [List.foldl_cons]
    by_cases hx : m < x.1
    · rw [show recordStep (m, nm) x = (x.1, some x.2) by simp [recordStep, hx]]
      rw [ih]
      have hmax : max m x.1 = x.1 := max_eq_right (le_of_lt hx)
      have hex : ∃ y ∈ x :: t, m < y.1 := ⟨x, List.mem_cons_self x t, hx⟩
      simp only [List.map_cons, List.foldl_cons, hmax, Prod.mk.injEq]
      refine ⟨trivial, ?_⟩
      rw [if_pos hex]
      by_cases hex2 : ∃ y ∈ t, x.1 < y.1
      · rw [if_pos hex2]
        obtain ⟨y, hy, hlt⟩ := hex2
        have hMt : x.1 < (t.map Prod.fst).foldl max x.1 :=
          lt_of_lt_of_le hlt (mem_le_foldl_max _ _ _ (List.mem_map_of_mem Prod.fst hy))
        rw [List.find?_cons_of_neg]
        simp only [decide_eq_true_eq]
        exact ne_of_lt hMt
      · rw [if_neg hex2]
        push_neg at hex2
        have hMt : (t.map Prod.fst).foldl max x.1 = x.1 :=
          foldl_max_eq_of_forall_le _ _ (by
            intro z hz
            obtain ⟨y, hy, rfl⟩ := List.mem_map.mp hz
            exact hex2 y hy)
        rw [hMt, List.find?_cons_of_pos _ (by simp)]
        rfl
    · rw [show recordStep (m, nm) x = (m, nm) by simp [recordStep, hx]]
      rw [ih]
      have hmax : max m x.1 = m := max_eq_left (le_of_not_lt hx)
      simp only [List.map_cons, List.foldl_cons, hmax, Prod.mk.injEq]
      refine ⟨trivial, ?_⟩
      by_cases hex2 : ∃ y ∈ t, m < y.1
      · have hex : ∃ y ∈ x :: t, m < y.1 := by
          obtain ⟨y, hy, hlt⟩ := hex2
          exact ⟨y, List.mem_cons_of_mem x hy, hlt⟩
        rw [if_pos hex, if_pos hex2]
        obtain ⟨y, hy, hlt⟩ := hex2
        have hMt : m < (t.map Prod.fst).foldl max m :=
          lt_of_lt_of_le hlt (mem_le_foldl_max _ _ _ (List.mem_map_of_mem Prod.fst hy))
        rw [List.find?_cons_of_neg]
        simp only [decide_eq_true_eq]
        exact ne_of_lt (lt_of_le_of_lt (le_of_not_lt hx) hMt)
      · have hex : ¬ ∃ y ∈ x :: t, m < y.1 := by
          rintro ⟨y, hy, hlt⟩
          rcases List.mem_cons.mp hy with rfl | hy'
          · exact hx hlt
          · exact hex2 ⟨y, hy', hlt⟩
        rw [if_neg hex, if_neg hex2]

/-- The kept pairs of the loop characterization are the claim's
`keptDevPairs`. -/
theorem kept_filter_eq (sorted : List PhotoMetadata) (θ : ℝ) :
    ((List.range (sorted.length - 2)).filter
        (fun i => curvQualifies sorted i ∧ curvDeviation sorted i < θ)).map
      (fun i => (curvDeviation sorted i, (sorted.getD (i + 1) default).name)) =
      keptDevPairs sorted θ := by
  unfold keptDevPairs curvDevPairs
  rw [List.filter_map, List.filter_filter]
  congr 1
  apply List.filter_congr
  intro i _
  simp [Function.comp, Bool.and_comm]

/-- When the running maximum started at 0 is positive, some element exceeds
0, and conversely. -/
theorem foldl_max_pos_iff (l : List (ℝ × String)) :
    (∃ x ∈ l, (0 : ℝ) < x.1) ↔ 0 < (l.map Prod.fst).foldl max 0 := by
  constructor
  · rintro ⟨x, hx, h0⟩
    exact lt_of_lt_of_le h0 (mem_le_foldl_max _ _ _ (List.mem_map_of_mem Prod.fst hx))
  · intro h
    rcases foldl_max_eq_or_mem (l.map Prod.fst) 0 with he | hm
    · rw [he] at h
      exact absurd h (lt_irrefl 0)
    · obtain ⟨x, hx, hfx⟩ := List.mem_map.mp hm
      exact ⟨x, hx, hfx ▸ h⟩

/-- The curvature analyzer coincides with the claim-side declarative
description. -/
theorem curvSpec_eq_aux (photos : List PhotoMetadata) (et : Bool) :
    calculateFlightCurvature photos et = specCurvature photos et := by
  by_cases h3 : photos.length < 3
  · simp only [calculateFlightCurvature, specCurvature]
    rw [if_pos h3, if_pos h3]
  · simp only [calculateFlightCurvature, specCurvature]
    rw [if_neg h3, if_neg h3]
    rw [curv_fold_char, kept_filter_eq, recordFold_char]
    simp only [CurvatureResult.mk.injEq, zero_add]
    refine ⟨?_, ?_, ?_⟩
    · cases hk : keptDevPairs (sortByTimestamp photos)
          (if et then (10 : ℝ) else 20) with
      | nil => simp [hk]
      | cons a t => simp [hk]
    · trivial
    · by_cases hpos : 0 < ((keptDevPairs (sortByTimestamp photos)
          (if et then (10 : ℝ) else 20)).map Prod.fst).foldl max 0
      · rw [if_pos ((foldl_max_pos_iff _).mpr hpos), if_pos hpos]
      · rw [if_neg (fun hc => hpos ((foldl_max_pos_iff _).mp hc)), if_neg hpos]

/-- C6: on the same collection, the curvature analyzer with
`excludeTurns = true` never reports a larger `max` deviation than with
`excludeTurns = false`: the stricter 10° threshold keeps a sublist of the
deviations kept by the 20° threshold. -/
theorem curvature_excludeTurns_max_le (photos : List PhotoMetadata) :
    (calculateFlightCurvature photos true).max ≤
      (calculateFlightCurvature photos false).max := by
  rw [curvSpec_eq_aux photos true, curvSpec_eq_aux photos false]
  by_cases h3 : photos.length < 3
  · simp [specCurvature, h3]
  · simp only [specCurvature, if_neg h3, if_true, if_false]
    apply foldl_max_le_sublist
    apply List.Sublist.map
    unfold keptDevPairs
    apply filter_sublist_of_imp
    intro x hx
    simp at hx ⊢
    linarith

/-- Every kept deviation pair has a first component in `[0, threshold)`. -/
theorem keptDevPairs_mem_bounds (sorted : List PhotoMetadata) (θ : ℝ)
    (x : ℝ × String) (hx : x ∈ keptDevPairs sorted θ) :
    0 ≤ x.1 ∧ x.1 < θ := by
  unfold keptDevPairs at hx
  obtain ⟨hmem, hdec⟩ := List.mem_filter.mp hx
  refine ⟨?_, by simpa using hdec⟩
  unfold curvDevPairs at hmem
  obtain ⟨i, _, rfl⟩ := List.mem_map.mp hmem
  exact (curvDeviation_bounds sorted i).1

/-- C10: for every collection and both settings of `excludeTurns`, the
curvature analyzer's outputs satisfy `0 ≤ avg ≤ max`, and `max` is strictly
below the active turn threshold (20°, or 10° when `excludeTurns`), so a
deviation at or above the threshold can never appear as the reported
maximum. -/
theorem curvature_invariants (photos : List PhotoMetadata) (et : Bool) :
    0 ≤ (calculateFlightCurvature photos et).avg ∧
      (calculateFlightCurvature photos et).avg ≤
        (calculateFlightCurvature photos et).max ∧
      (calculateFlightCurvature photos et).max < (if et then (10 : ℝ) else 20) := by
  have hθ : (0 : ℝ) < if et then (10 : ℝ) else 20 := by cases et <;> norm_num
  rw [curvSpec_eq_aux]
  by_cases h3 : photos.length < 3
  · simp only [specCurvature, if_pos h3]
    exact ⟨le_refl 0, le_refl 0, hθ⟩
  · simp only [specCurvature, if_neg h3]
    set kept := keptDevPairs (sortByTimestamp photos)
      (if et then (10 : ℝ) else 20) with hkept
    set M := (kept.map Prod.fst).foldl max 0 with hM
    have hM0 : 0 ≤ M := le_foldl_max _ 0
    have hMmem : ∀ x ∈ kept, x.1 ≤ M := fun x hx =>
      mem_le_foldl_max _ _ _ (List.mem_map_of_mem Prod.fst hx)
    have hbnd : ∀ x ∈ kept, 0 ≤ x.1 ∧ x.1 < (if et then (10 : ℝ) else 20) :=
      fun x hx => keptDevPairs_mem_bounds _ _ x (hkept ▸ hx)
    have hMθ : M < (if et then (10 : ℝ) else 20) := by
      rcases foldl_max_eq_or_mem (kept.map Prod.fst) 0 with he | hm
      · rw [hM, he]
        exact hθ
      · rw [← hM] at hm
        obtain ⟨x, hx, hfx⟩ := List.mem_map.mp hm
        exact hfx ▸ (hbnd x hx).2
    have hmembounds : ∀ z ∈ kept.map Prod.fst, 0 ≤ z ∧ z ≤ M := by
      intro z hz
      obtain ⟨x, hx, rfl⟩ := List.mem_map.mp hz
      exact ⟨(hbnd x hx).1, hMmem x hx⟩
    refine ⟨?_, ?_, hMθ⟩
    · by_cases hk : kept = []
      · simp [hk]
      · rw [if_neg (by simpa using hk)]
        have hb := avg_bounds (kept.map Prod.fst) M (by simpa using hk) hmembounds
        rw [List.length_map] at hb
        exact hb.1
    · by_cases hk : kept = []
      · simp [hk, hM0]
      · rw [if_neg (by simpa using hk)]
        have hb := avg_bounds (kept.map Prod.fst) M (by simpa using hk) hmembounds
        rw [List.length_map] at hb
        exact hb.2

/-- On a meridian, two points one degree of latitude apart are exactly
`R·(π/180)` meters apart, and the bearing from the southern to the northern
point is exactly 0. -/
theorem meridian_step (la lg : ℝ) :
    calculateDistance ⟨la, lg⟩ ⟨la + 1, lg⟩ = R * (Real.pi / 180) ∧
      calculateBearing ⟨la, lg⟩ ⟨la + 1, lg⟩ = 0 := by
  have hπ := Real.pi_pos
  have ht1 : toRad 1 / 2 = Real.pi / 360 := by unfold toRad; ring
  have hs : 0 < Real.sin (Real.pi / 360) :=
    Real.sin_pos_of_pos_of_lt_pi (by positivity) (by linarith)
  have hc : 0 < Real.cos (Real.pi / 360) :=
    Real.cos_pos_of_mem_Ioo ⟨by nlinarith, by nlinarith⟩
  constructor
  · simp only [calculateDistance, show la + 1 - la = (1 : ℝ) by ring,
      show lg - lg = (0 : ℝ) by ring, show toRad 0 = 0 by simp [toRad],
      zero_div, Real.sin_zero, zero_mul, mul_zero, add_zero, ht1]
    rw [Real.sqrt_mul_self (le_of_lt hs)]
    rw [show 1 - Real.sin (Real.pi / 360) * Real.sin (Real.pi / 360) =
        Real.cos (Real.pi / 360) * Real.cos (Real.pi / 360) by
      nlinarith [Real.sin_sq_add_cos_sq (Real.pi / 360)]]
    rw [Real.sqrt_mul_self (le_of_lt hc)]
    unfold atan2
    rw [if_pos hc, ← Real.tan_eq_sin_div_cos,
      Real.arctan_tan (by nlinarith) (by nlinarith)]
    ring
  · simp only [calculateBearing, show lg - lg = (0 : ℝ) by ring,
      show toRad 0 = 0 by simp [toRad], Real.sin_zero, Real.cos_zero,
      zero_mul, mul_one]
    rw [show Real.cos (toRad la) * Real.sin (toRad (la + 1)) -
        Real.sin (toRad la) * Real.cos (toRad (la + 1)) =
        Real.sin (toRad (la + 1) - toRad la) by rw [Real.sin_sub]; ring]
    rw [show toRad (la + 1) - toRad la = Real.pi / 180 by unfold toRad; ring]
    have hx : 0 < Real.sin (Real.pi / 180) :=
      Real.sin_pos_of_pos_of_lt_pi (by positivity) (by linarith)
    unfold atan2
    rw [if_pos hx]
    rw [show (0 : ℝ) / Real.sin (Real.pi / 180) = 0 by ring, Real.arctan_zero]
    rw [show toDeg 0 = 0 by simp [toDeg]]
    unfold jsMod rtrunc
    norm_num

/-- C7 counterexample: on a straight meridian path of three photos spaced
one degree of latitude (≈ 111 km, so both segment distances exceed 5 m and
the deviation 0° is kept, below the 20° threshold), the analyzer reports
`maxPhotoName = null`, not the name of the vertex photo `p2` of the largest
(zero) kept deviation as the claim states. -/
theorem curvature_maxPhotoName_cex :
    calculateFlightCurvature [cexQ1, cexQ2, cexQ3] false =
      { avg := 0, max := 0, maxPhotoName := none } ∧
      5 < calculateDistance cexQ1.pos cexQ2.pos ∧
      5 < calculateDistance cexQ2.pos cexQ3.pos ∧
      foldTo180 |calculateBearing cexQ1.pos cexQ2.pos -
        calculateBearing cexQ2.pos cexQ3.pos| < 20 := by
  have h5 : (5 : ℝ) < R * (Real.pi / 180) := by
    unfold R
    nlinarith [Real.pi_gt_three]
  have h01 := meridian_step 0 0
  have h12 := meridian_step 1 0
  norm_num at h01 h12
  have hd12 : calculateDistance cexQ1.pos cexQ2.pos = R * (Real.pi / 180) := h01.1
  have hd23 : calculateDistance cexQ2.pos cexQ3.pos = R * (Real.pi / 180) := h12.1
  have hb12 : calculateBearing cexQ1.pos cexQ2.pos = 0 := h01.2
  have hb23 : calculateBearing cexQ2.pos cexQ3.pos = 0 := h12.2
  have hdev : foldTo180 |calculateBearing cexQ1.pos cexQ2.pos -
      calculateBearing cexQ2.pos cexQ3.pos| < 20 := by
    rw [hb12, hb23]
    norm_num [foldTo180]
  refine ⟨?_, by rw [hd12]; exact h5, by rw [hd23]; exact h5, hdev⟩
  rw [curvSpec_eq_aux]
  have hlen : ¬ ([cexQ1, cexQ2, cexQ3] : List PhotoMetadata).length < 3 := by simp
  simp only [specCurvature]
  rw [if_neg hlen]
  have hsort : sortByTimestamp [cexQ1, cexQ2, cexQ3] = [cexQ1, cexQ2, cexQ3] := by
    simp [sortByTimestamp, List.insertionSort, List.orderedInsert, cexQ1, cexQ2, cexQ3]
  rw [hsort, show (if (false : Bool) then (10 : ℝ) else 20) = 20 by simp]
  have hq : curvQualifies [cexQ1, cexQ2, cexQ3] 0 := by
    unfold curvQualifies
    constructor
    · show 5 < calculateDistance cexQ1.pos cexQ2.pos
      rw [hd12]; exact h5
    · show 5 < calculateDistance cexQ2.pos cexQ3.pos
      rw [hd23]; exact h5
  have hdev0 : curvDeviation [cexQ1, cexQ2, cexQ3] 0 = 0 := by
    unfold curvDeviation
    show foldTo180 |calculateBearing cexQ1.pos cexQ2.pos -
      calculateBearing cexQ2.pos cexQ3.pos| = 0
    rw [hb12, hb23]
    norm_num [foldTo180]
  have hkept : keptDevPairs [cexQ1, cexQ2, cexQ3] (20 : ℝ) = [(0, "P2")] := by
    unfold keptDevPairs curvDevPairs
    rw [show ([cexQ1, cexQ2, cexQ3] : List PhotoMetadata).length - 2 = 1 by simp,
      show List.range 1 = [0] by rfl]
    rw [List.filter_cons, if_pos (by simpa using hq), List.filter_nil,
      List.map_cons, List.map_nil, hdev0]
    rw [List.filter_cons, if_pos (by norm_num), List.filter_nil]
    show [((0 : ℝ), ([cexQ1, cexQ2, cexQ3].getD 1 default).name)] = [(0, "P2")]
    rfl
  rw [hkept]
  norm_num

/-- C7 (amended): the flight-curvature analyzer coincides with the
declarative description: zeros whenever the collection has fewer than 3
photos; a triple qualifies only if both segment distances exceed 5 m; its
deviation, folded to ≤ 180°, is discarded at or above the turn threshold
(10° if `excludeTurns`, else 20°); remaining deviations are averaged and
the largest is reported; `maxPhotoName` is the vertex photo `p2` of the
first triple attaining the largest kept deviation when that deviation is
positive, and stays null when every kept deviation is zero; in particular
the analyzer returns `{avg: 0, max: 0, maxPhotoName: null}` whenever fewer
than 3 photos are given or no consecutive triple qualifies. -/
theorem calculateFlightCurvature_eq_spec (photos : List PhotoMetadata)
    (et : Bool) :
    calculateFlightCurvature photos et = specCurvature photos et ∧
      (photos.length < 3 ∨ curvDevPairs (sortByTimestamp photos) = [] →
        calculateFlightCurvature photos et =
          { avg := 0, max := 0, maxPhotoName := none }) := by
  refine ⟨curvSpec_eq_aux photos et, ?_⟩
  rintro (h | h)
  · simp only [calculateFlightCurvature]
    rw [if_pos h]
  · rw [curvSpec_eq_aux]
    by_cases h3 : photos.length < 3
    · simp only [specCurvature]
      rw [if_pos h3]
    · simp only [specCurvature]
      rw [if_neg h3]
      have hkept : keptDevPairs (sortByTimestamp photos)
          (if et then (10 : ℝ) else 20) = [] := by
        unfold keptDevPairs
        rw [h, List.filter_nil]
      simp [hkept]

/-- C7 witness for the amended claim's conditional clause: a single-photo
collection (fewer than 3 photos) yields the all-zero result. -/
theorem calculateFlightCurvature_eq_spec_witness :
    ([cexQ1] : List PhotoMetadata).length < 3 ∧
      calculateFlightCurvature [cexQ1] false =
        { avg := 0, max := 0, maxPhotoName := none } := by
  have h := calculateFlightCurvature_eq_spec [cexQ1] false
  exact ⟨by simp, h.2 (Or.inl (by simp))⟩

/-- C5: for every photo collection, drone profile and design height, the
forward overlap and side overlap both lie in `[0, 100]`. -/
theorem calculateOverlaps_bounds (photos : List PhotoMetadata)
    (drone : DroneSpecs) (relativeHeight : ℝ) :
    0 ≤ (calculateOverlaps photos drone relativeHeight).forward ∧
      (calculateOverlaps photos drone relativeHeight).forward ≤ 100 ∧
      0 ≤ (calculateOverlaps photos drone relativeHeight).side ∧
      (calculateOverlaps photos drone relativeHeight).side ≤ 100 := by
  simp only [calculateOverlaps]
  by_cases hn : photos.length < 2
  · rw [if_pos hn]
    norm_num
  · rw [if_neg hn]
    simp only [forward_fold_char, side_fold_char, zero_add]
    have key : ∀ (vals : List ℝ) (k : ℕ), k = vals.length →
        (∀ x ∈ vals, 0 ≤ x ∧ x ≤ 100) →
        0 ≤ (if 0 < k then vals.sum / (k : ℝ) else 0) ∧
          (if 0 < k then vals.sum / (k : ℝ) else 0) ≤ 100 := by
      intro vals k hk hb
      subst hk
      by_cases h0 : 0 < vals.length
      · have hne : vals ≠ [] := List.length_pos.mp h0
        have hav := avg_bounds vals 100 hne hb
        exact ⟨by rw [if_pos h0]; exact hav.1, by rw [if_pos h0]; exact hav.2⟩
      · exact ⟨by simp [h0], by simp [h0]⟩
    set sorted := sortByTimestamp photos with hsorted
    set gh := drone.sensorHeight * relativeHeight / drone.focalLength with hgh
    set gw := drone.sensorWidth * relativeHeight / drone.focalLength with hgw
    have hmemf : ∀ x ∈ ((((List.range (sorted.length - 1)).map
          (pairDist sorted)).filter (fun d => d < gh * 2)).map
          (fun d => max 0 ((1 - d / gh) * 100))), 0 ≤ x ∧ x ≤ 100 := by
      intro x hx
      obtain ⟨d, hd, rfl⟩ := List.mem_map.mp hx
      obtain ⟨hdm, hddec⟩ := List.mem_filter.mp hd
      have hdlt : d < gh * 2 := by simpa using hddec
      have hd0 : 0 ≤ d := by
        obtain ⟨i, _, rfl⟩ := List.mem_map.mp hdm
        exact calculateDistance_nonneg _ _
      refine ⟨le_max_left 0 _, ?_⟩
      by_cases hgh0 : 0 < gh
      · have hdiv : 0 ≤ d / gh := div_nonneg hd0 (le_of_lt hgh0)
        have : (1 - d / gh) * 100 ≤ 100 := by nlinarith
        exact max_le (by norm_num) this
      · exfalso
        have : gh * 2 ≤ 0 := by nlinarith [le_of_not_lt hgh0]
        linarith
    have hmems : ∀ v ∈ (List.range sorted.length).filterMap
        (specSideContribution sorted gw), 0 ≤ v ∧ v ≤ 100 := by
      intro v hv
      obtain ⟨i, _, heq⟩ := List.mem_filterMap.mp hv
      unfold specSideContribution at heq
      obtain ⟨md, _, rfl⟩ := Option.map_eq_some'.mp heq
      refine ⟨le_max_left 0 _, max_le (by norm_num) ?_⟩
      exact le_trans (min_le_left 100 _) (le_refl 100)
    have hfwd := key _ _ (List.length_map _ _).symm hmemf
    have hside := key _ _ rfl hmems
    exact ⟨hfwd.1, hfwd.2, hside.1, hside.2⟩

/-- C1 witness for the amended claim: a collection whose first photo is
annotated FIXED, discharging the annotated-first-photo hypothesis. -/
theorem rtkFixedRatio_amended_witness :
    (rtkFixedRatio [cexPhotoB, cexPhotoA] = -1 ↔ cexPhotoB.rtkStatus = none) ∧
      rtkFixedRatio [cexPhotoB, cexPhotoA] =
        100 * (countFixed [cexPhotoB, cexPhotoA] : ℝ) /
          ((([cexPhotoB, cexPhotoA] : List PhotoMetadata).length : ℕ) : ℝ) :=
  ⟨(rtkFixedRatio_amended cexPhotoB [cexPhotoA]).1,
    (rtkFixedRatio_amended cexPhotoB [cexPhotoA]).2 (by simp [cexPhotoB])⟩

/-- C2 (code bug witness at the failing input): on a 2×2 buffer the interior
region is empty, so the JavaScript code computes `0/0 = NaN` for the
Laplacian mean and variance; the returned `blurScore` is NaN (here `none`),
not a finite score, and `NaN < 50` makes `isBlurry` false. -/
theorem analyzeImageQualityCore_two_by_two_nan :
    analyzeImageQualityCore 2 2 blackBuffer =
      { isBlurry := false, blurScore := none, isOverexposed := false,
        exposureScore := 0 } := by
  simp only [analyzeImageQualityCore, blackBuffer]
  have h0 : (List.filter (fun i => decide ((250 : ℚ) < 0))
      (List.range 4)).length = 0 := by simp
  simp [h0, List.range']

end FlightQC
